import Mathlib

/-!
Verification of the coordinate-system and transformation engine of the
spatialdata repository against its natural-language specification.

The development shallowly embeds the Python source:

* src/src/spatialdata/_core/operations/transform.py
  (transform_raster, prepend_transformation, the singledispatch transform
  registrations, get_transformation_between_landmarks), and
* src/spatialdata/_core/_spatialdata.py (validate_coordinate_systems).

The transformation algebra (spatialdata.transformations.transformations:
Identity, MapAxis, Translation, Scale, Affine, Sequence, to_affine_matrix,
inverse) and a few collaborator contracts (get_transformation,
set_transformation, the default coordinate-system name, the resampler
interpolation defaults, the dict semantics of CoordinateSystem equality)
are code of the repository that is not present under src/; those
definitions are modelled from the specification and are marked
"Modelled from the spec" in their doc comments.

Matrices are dense rational matrices represented as lists of rows; Python
floats are modelled as exact rationals.
-/

/-- Rows-of-entries representation of a dense rational matrix. -/
abbrev Mat := List (List ℚ)

/-- Dot product of two coordinate rows (zip semantics, as in numpy for
matching shapes). -/
def dotL (u v : List ℚ) : ℚ := (List.zipWith (· * ·) u v).sum

/-- Matrix-vector product: each row of the matrix dotted with the vector. -/
def matVecL (m : Mat) (v : List ℚ) : List ℚ := m.map (fun row => dotL row v)

/-- Matrix product of two rectangular matrices. -/
def matMulL (a b : Mat) : Mat :=
  a.map (fun row => (List.range (b.headD []).length).map (fun j => dotL row (b.map (fun r => r.getD j 0))))

/-- Row i of the identity matrix of size n. -/
def unitRowQ (n i : ℕ) : List ℚ := (List.range n).map (fun j => if j = i then 1 else 0)

/-- Identity matrix of size n. -/
def identityMat (n : ℕ) : Mat := (List.range n).map (fun i => unitRowQ n i)

/-- Maximum of a list of rationals (0 on the empty list; all uses are on
nonempty corner lists). -/
def listMax : List ℚ → ℚ
  | [] => 0
  | q :: qs => qs.foldl max q

/-- Minimum of a list of rationals (0 on the empty list). -/
def listMin : List ℚ → ℚ
  | [] => 0
  | q :: qs => qs.foldl min q

/-- Column i of a list of rows. -/
def columnL (rows : List (List ℚ)) (i : ℕ) : List ℚ := rows.map (fun r => r.getD i 0)

/-- Truncation toward zero, the semantics of the Python int() conversion of
a real number. -/
def pyInt (q : ℚ) : ℤ := if 0 ≤ q then ⌊q⌋ else ⌈q⌉

/-- The closed set of axis names used across the system. -/
inductive Axis where
  | x
  | y
  | z
  | c
  | t
deriving DecidableEq

/-- Spatial axes are x, y and z; c (channel) and t (time) are not spatial. -/
def Axis.isSpatial : Axis → Bool
  | .x => true
  | .y => true
  | .z => true
  | .c => false
  | .t => false

/-- Modelled from the spec: the number of spatial dimensions a transformation
sees in a given axis tuple is the count of spatial axes in it (the method
named get_n_spatial_dims on BaseTransformation). -/
def nSpatialDims (axes : List Axis) : ℕ := (axes.filter (fun a => a.isSpatial)).length

/-- Modelled from the spec: the tagged-variant transformation type with
variants Identity, MapAxis, Translation, Scale, Affine and
Sequence-composition. -/
inductive Transformation where
  | identity
  | mapAxis (pairs : List (Axis × Axis))
  | translation (v : List ℚ) (axes : List Axis)
  | scale (s : List ℚ) (axes : List Axis)
  | affine (matrix : Mat) (inputAxes outputAxes : List Axis)
  | sequence (ts : List Transformation)

/-- Index of the first occurrence of an axis in an axis list. -/
def idxOf? : List Axis → Axis → Option ℕ
  | [], _ => none
  | b :: rest, a => if b = a then some 0 else (idxOf? rest a).map (fun i => i + 1)

/-- Value attached to an axis by a parallel (axes, values) pair, 0 when the
axis is absent. -/
def lookupAxisVal (axes : List Axis) (vals : List ℚ) (a : Axis) : ℚ :=
  match (List.zip axes vals).find? (fun p => decide (p.1 = a)) with
  | some p => p.2
  | none => 0

/-- Entry (i, j) of a list matrix. -/
def entryL (m : Mat) (i j : ℕ) : ℚ := (m.getD i []).getD j 0

/-- Last row of an augmented matrix over n input axes. -/
def lastRowQ (n : ℕ) : List ℚ := (List.range (n + 1)).map (fun j => if j = n then 1 else 0)

/-- Row of the materialized matrix for an output axis that the transform
passes through unchanged (identity row copying the same-named input axis). -/
def passThroughRow (inAx : List Axis) (a : Axis) : Option (List ℚ) :=
  (idxOf? inAx a).map (fun j => unitRowQ (inAx.length + 1) j)

/-- Row of the materialized matrix of a Translation for one output axis:
identity row plus the translation component in the last column. -/
def translationRow (inAx : List Axis) (tax : List Axis) (v : List ℚ) (a : Axis) : Option (List ℚ) :=
  (idxOf? inAx a).map (fun j =>
    (List.range (inAx.length + 1)).map (fun col =>
      if col = j then 1 else if col = inAx.length then lookupAxisVal tax v a else 0))

/-- Row of the materialized matrix of a Scale for one output axis: diagonal
row with the scale factor (1 for axes the scale does not mention). -/
def scaleRow (inAx : List Axis) (sax : List Axis) (s : List ℚ) (a : Axis) : Option (List ℚ) :=
  (idxOf? inAx a).map (fun j =>
    (List.range (inAx.length + 1)).map (fun col =>
      if col = j then (if a ∈ sax then lookupAxisVal sax s a else 1) else 0))

/-- Row of the materialized matrix of a MapAxis for one output axis: selects
the source input axis mapped onto it, with identity pass-through for axes
the map does not produce. -/
def mapAxisRow (inAx : List Axis) (pairs : List (Axis × Axis)) (a : Axis) : Option (List ℚ) :=
  match pairs.find? (fun p => decide (p.2 = a)) with
  | some p => (idxOf? inAx p.1).map (fun j => unitRowQ (inAx.length + 1) j)
  | none => passThroughRow inAx a

/-- Row of the materialized matrix of an Affine for one output axis:
column-permuted copy of the corresponding matrix row, or identity
pass-through when the affine does not produce the axis. -/
def affineRow (inAx : List Axis) (m : Mat) (tin tout : List Axis) (a : Axis) : Option (List ℚ) :=
  match idxOf? tout a with
  | some j =>
    some ((List.range (inAx.length + 1)).map (fun col =>
      if col = inAx.length then entryL m j tin.length
      else
        match inAx.getD col Axis.x, idxOf? tin (inAx.getD col Axis.x) with
        | _, some jin => entryL m j jin
        | _, none => 0))
  | none => passThroughRow inAx a

/-- Collect the materialized row of every output axis, failing when any
single row fails. -/
def rowsFor (f : Axis → Option (List ℚ)) : List Axis → Option (List (List ℚ))
  | [] => some []
  | a :: rest => do
    let r ← f a
    let rs ← rowsFor f rest
    pure (r :: rs)

mutual

/-- Modelled from the spec: to_affine_matrix(input_axes, output_axes)
returns the augmented matrix of shape (output+1) x (input+1) embedding the
transform for the requested axis lists, inserting identity rows for output
axes the transform does not act on, failing (none) when no pass-through is
derivable; the matrix of a Sequence is the order-respecting product of the
matrices of its stages. -/
def toAffineMatrix : Transformation → List Axis → List Axis → Option Mat
  | .identity, inAx, outAx => do
    let rows ← rowsFor (fun a => passThroughRow inAx a) outAx
    pure (rows ++ [lastRowQ inAx.length])
  | .mapAxis pairs, inAx, outAx => do
    let rows ← rowsFor (fun a => mapAxisRow inAx pairs a) outAx
    pure (rows ++ [lastRowQ inAx.length])
  | .translation v tax, inAx, outAx => do
    let rows ← rowsFor (fun a => translationRow inAx tax v a) outAx
    pure (rows ++ [lastRowQ inAx.length])
  | .scale s sax, inAx, outAx => do
    let rows ← rowsFor (fun a => scaleRow inAx sax s a) outAx
    pure (rows ++ [lastRowQ inAx.length])
  | .affine m tin tout, inAx, outAx =>
    if m.length = tout.length + 1 ∧ m.all (fun r => r.length = tin.length + 1) ∧ tin.all (fun b => b ∈ inAx) then do
      let rows ← rowsFor (fun a => affineRow inAx m tin tout a) outAx
      pure (rows ++ [lastRowQ inAx.length])
    else none
  | .sequence ts, inAx, outAx =>
    if inAx = outAx then seqMatrixList ts inAx else none

/-- Matrix of an ordered list of transformation stages on a common axis
list: apply the head first, so the product accumulates on the left. -/
def seqMatrixList : List Transformation → List Axis → Option Mat
  | [], ax => some (identityMat (ax.length + 1))
  | t :: rest, ax => do
    let m ← toAffineMatrix t ax ax
    let mrest ← seqMatrixList rest ax
    pure (matMulL mrest m)

end

/-- Matrix with row i and column j removed. -/
def minorL (m : Mat) (i j : ℕ) : Mat := (m.eraseIdx i).map (fun r => r.eraseIdx j)

/-- Determinant by Laplace expansion along the first row, with a structural
fuel equal to the number of rows. -/
def detFuel : ℕ → Mat → ℚ
  | 0, _ => 1
  | _ + 1, [] => 1
  | n + 1, row :: rest =>
    (List.range row.length).foldl
      (fun acc j => acc + (-1 : ℚ) ^ j * row.getD j 0 * detFuel n (rest.map (fun r => r.eraseIdx j))) 0

/-- Determinant of a square list matrix. -/
def detL (m : Mat) : ℚ := detFuel m.length m

/-- Matrix inverse through the adjugate, none when the determinant is zero
(the singular case raised by the linear-algebra backend). -/
def invMatL (m : Mat) : Option Mat :=
  let d := detL m
  if d = 0 then none
  else
    some ((List.range m.length).map (fun i =>
      (List.range m.length).map (fun j => (-1 : ℚ) ^ (i + j) * detL (minorL m j i) / d)))

mutual

/-- Modelled from the spec: inverse() of each variant; defined when the
underlying linear part is invertible, otherwise fails (the
NonInvertibleTransformation error); the inverse of a Sequence is the
reverse-ordered list of inverses. -/
def Transformation.inverse : Transformation → Option Transformation
  | .identity => some .identity
  | .mapAxis pairs => some (.mapAxis (pairs.map Prod.swap))
  | .translation v tax => some (.translation (v.map Neg.neg) tax)
  | .scale s sax =>
    if s.all (fun q => decide (q ≠ 0)) then some (.scale (s.map (fun q => q⁻¹)) sax) else none
  | .affine m tin tout =>
    if tin.length = tout.length then (invMatL m).map (fun mi => .affine mi tout tin) else none
  | .sequence ts => (invListRev ts).map .sequence

/-- Reverse-ordered inverses of a list of transformations. -/
def invListRev : List Transformation → Option (List Transformation)
  | [] => some []
  | t :: rest => do
    let r ← invListRev rest
    let i ← t.inverse
    pure (r ++ [i])

end

/-- Binary corner selectors, the embedding of
itertools.product([0, 1], repeat=k) with the first coordinate varying
slowest. -/
def binaryVectors : ℕ → List (List ℚ)
  | 0 => [[]]
  | n + 1 => [(0 : ℚ), 1].flatMap (fun b => (binaryVectors n).map (fun bs => b :: bs))

/-- Observable outcome of transform_raster: the computed output shape, the
translation recorded from the minima of the mapped corners, the axes that
translation is declared on, and the matrix handed to the inverse-warping
resampler (dask_image.ndinterp.affine_transform, whose matrix argument maps
output coordinates back to input coordinates). -/
structure RasterTransformResult where
  outputShape : List ℤ
  translationVector : List ℚ
  translationAxes : List Axis
  matrixPassed : Mat

/-- Embedding of transform_raster (transform.py lines 41-116): enumerate the
2 to the k corners of the spatial bounding box, map them through the affine
matrix of the transformation, take the integer span per spatial axis as the
new spatial shape (keeping the channel length), record the per-axis minima
as the compensating Translation, and pass the matrix of
Sequence([translation, transformation.inverse()]) to the resampler. The
actual pixel resampling is delegated to the external dask_image backend and
is represented by the matrix handed to it. -/
def transformRaster (shape : List ℕ) (axes : List Axis) (t : Transformation) :
    Option RasterTransformResult := do
  let k := nSpatialDims axes
  let spatialShape := shape.drop (shape.length - k)
  let binary := (binaryVectors k).map (fun bs =>
    List.zipWith (fun b (s : ℕ) => b * (s : ℚ)) bs spatialShape)
  let hasC := Axis.c ∈ axes
  let v := binary.map (fun row => (if hasC then [(0 : ℚ)] else []) ++ row ++ [1])
  let matrix ← toAffineMatrix t axes axes
  let tinv ← t.inverse
  let newV := v.map (fun w => matVecL matrix w)
  let cShape : List ℤ := if hasC then [(shape.headD 0 : ℤ)] else []
  let newSpatialShape := (List.range k).map (fun i =>
    pyInt (listMax (columnL newV (cShape.length + i)) - listMin (columnL newV (cShape.length + i))))
  let outputShape := cShape ++ newSpatialShape
  let width := (if hasC then 1 else 0) + k + 1
  let translationVector := (List.range (width - 1)).map (fun i => listMin (columnL newV i))
  let translation := Transformation.translation translationVector axes
  let matrixPassed ← toAffineMatrix (.sequence [translation, tinv]) axes axes
  pure ⟨outputShape, translationVector, axes, matrixPassed⟩

/-- Corners of the spatial bounding box of an array with the given spatial
sizes: every choice of 0 or the full size per spatial axis (the claim-side
formulation: the cartesian product of the per-axis extremes). -/
def boxCorners : List ℕ → List (List ℚ)
  | [] => [[]]
  | s :: rest => [(0 : ℚ), (s : ℚ)].flatMap (fun v => (boxCorners rest).map (fun p => v :: p))

/-- The corners of the spatial box mapped through an affine matrix as
homogeneous coordinates, with a zero channel coordinate prepended when the
axis list carries a channel axis. -/
def mappedCorners (m : Mat) (hasC : Bool) (spatialShape : List ℕ) : List (List ℚ) :=
  (boxCorners spatialShape).map (fun p => matVecL m ((if hasC then [(0 : ℚ)] else []) ++ p ++ [1]))

/-- Modelled from the spec: the fixed default coordinate-system name used
when an element carries no transformations (DEFAULT_COORDINATE_SYSTEM in
spatialdata.models, whose module is not under src). -/
def DEFAULT_COORDINATE_SYSTEM : String := "global"

/-- Per-element transformation graph: mapping from coordinate-system name to
transformation, in dict insertion order. -/
abbrev Graph := List (String × Transformation)

/-- Representation variants that reach prepend_transformation. -/
inductive ElementKind where
  | spatialImage
  | multiscaleSpatialImage
  | daskDataFrame
  | geoDataFrame
deriving DecidableEq

/-- Raster kinds are the single-resolution and multiresolution images. -/
def ElementKind.isRaster : ElementKind → Bool
  | .spatialImage => true
  | .multiscaleSpatialImage => true
  | .daskDataFrame => false
  | .geoDataFrame => false

/-- Failures of prepend_transformation: a failed assert on the
raster-translation argument, or a non-invertible transformation. -/
inductive PrependErr where
  | assertionFailed
  | nonInvertible
deriving DecidableEq

/-- Embedding of the to_prepend computation of prepend_transformation
(transform.py lines 150-163): raster with maintain_positioning prepends
Sequence([raster_translation, transformation.inverse()]), raster without it
prepends only the raster translation, non-raster with maintain_positioning
prepends the inverse, non-raster without it prepends nothing. -/
def computeToPrepend (kind : ElementKind) (t : Transformation)
    (rasterTranslation : Option Transformation) (mp : Bool) :
    Except PrependErr (Option Transformation) :=
  if kind.isRaster then
    if mp then
      match rasterTranslation with
      | none => .error .assertionFailed
      | some r =>
        match t.inverse with
        | none => .error .nonInvertible
        | some tinv => .ok (some (.sequence [r, tinv]))
    else .ok rasterTranslation
  else
    if rasterTranslation.isSome then .error .assertionFailed
    else if mp then
      match t.inverse with
      | none => .error .nonInvertible
      | some tinv => .ok (some tinv)
    else .ok none

/-- Embedding of prepend_transformation (transform.py lines 119-179): after
computing to_prepend, read the full graph of the element; when it is empty,
insert a default Identity entry under the default coordinate-system name and
log an informational message (the returned Bool); then overwrite every entry
with Sequence([to_prepend, entry]) when to_prepend exists. -/
def prependTransformation (kind : ElementKind) (graph : Graph) (t : Transformation)
    (rasterTranslation : Option Transformation) (mp : Bool) :
    Except PrependErr (Graph × Bool) := do
  let toPrepend ← computeToPrepend kind t rasterTranslation mp
  let (d, logged) :=
    if graph.isEmpty then ([(DEFAULT_COORDINATE_SYSTEM, Transformation.identity)], true)
    else (graph, false)
  pure (d.map (fun e =>
    (e.1, match toPrepend with
          | some p => Transformation.sequence [p, e.2]
          | none => e.2)), logged)

/-- Arena of per-element transformation graphs: element handle to graph.
Mutable object-attached dictionaries in Python are modelled as this explicit
store. -/
abbrev Store := ℕ → Graph

/-- Write the graph of one element handle. -/
def setGraph (s : Store) (i : ℕ) (g : Graph) : Store :=
  fun j => if j = i then g else s j

/-- Modelled from the spec: get_transformation(element, get_all=True)
returns the full mapping of the element as a defensive copy. -/
def getTransformationAll (s : Store) (i : ℕ) : Graph := s i

/-- Embedding of the transformation-graph flow common to the four
singledispatch transform registrations (transform.py lines 261-269, 318-326,
350-358, 376-384): read the graph of the input element, install a copy of it
on the freshly created output element, then run prepend_transformation on
the output element only. The data payload is handled separately per
representation; this captures every graph access the code performs. -/
def transformElementGraphs (store : Store) (e : ℕ) (kind : ElementKind)
    (t : Transformation) (rasterTranslation : Option Transformation) (mp : Bool)
    (fresh : ℕ) : Option Store :=
  let old := getTransformationAll store e
  let store1 := setGraph store fresh old
  match prependTransformation kind (getTransformationAll store1 fresh) t rasterTranslation mp with
  | .ok (g, _) => some (setGraph store1 fresh g)
  | .error _ => none

/-- Types dispatched on by the singledispatch transform operation. -/
inductive DispatchType where
  | spatialData
  | spatialImage
  | multiscaleSpatialImage
  | daskDataFrame
  | geoDataFrame
  | unregistered
deriving DecidableEq

/-- Default value of maintain_positioning declared by each registered
implementation (transform.py lines 224, 237, 277, 333, 364); none for types
with no registered overload. -/
def registeredDefault : DispatchType → Option Bool
  | .spatialData => some true
  | .spatialImage => some true
  | .multiscaleSpatialImage => some true
  | .daskDataFrame => some true
  | .geoDataFrame => some true
  | .unregistered => none

/-- Default value of maintain_positioning declared by the generic
singledispatch fallback (transform.py line 183). -/
def genericFallbackDefault : Bool := false

/-- Python singledispatch semantics: a call that omits maintain_positioning
uses the default declared by the implementation the argument dispatches to,
falling back to the generic signature default for unregistered types. -/
def effectiveDefaultMP (k : DispatchType) : Bool :=
  (registeredDefault k).getD genericFallbackDefault

/-- Dispatch type of each spatial element representation. -/
def ElementKind.dispatch : ElementKind → DispatchType
  | .spatialImage => .spatialImage
  | .multiscaleSpatialImage => .multiscaleSpatialImage
  | .daskDataFrame => .daskDataFrame
  | .geoDataFrame => .geoDataFrame

/-- A SpatialData container: named elements of the four spatial types plus
an optional annotation table. -/
structure SpatialDataObj (Elem Table : Type) where
  images : List (String × Elem)
  labels : List (String × Elem)
  points : List (String × Elem)
  shapes : List (String × Elem)
  table : Option Table

/-- Embedding of the SpatialData registration of transform (transform.py
lines 223-233): transform every element of the four spatial categories with
the same maintain_positioning flag and assemble a new SpatialData from only
those; the constructor is called without a table argument. The per-element
transform is the externally dispatched operation, abstracted as tf. -/
def transformSpatialData {Elem Table : Type} (tf : Elem → Transformation → Bool → Elem)
    (sd : SpatialDataObj Elem Table) (t : Transformation) (mp : Bool) :
    SpatialDataObj Elem Table :=
  { images := sd.images.map (fun kv => (kv.1, tf kv.2 t mp))
    labels := sd.labels.map (fun kv => (kv.1, tf kv.2 t mp))
    points := sd.points.map (fun kv => (kv.1, tf kv.2 t mp))
    shapes := sd.shapes.map (fun kv => (kv.1, tf kv.2 t mp))
    table := none }

/-- The four raster schemas distinguished by get_model. -/
inductive RasterSchema where
  | labels2d
  | labels3d
  | image2d
  | image3d
deriving DecidableEq

/-- A raster schema is label-valued when it is one of the Labels models. -/
def RasterSchema.isLabels : RasterSchema → Bool
  | .labels2d => true
  | .labels3d => true
  | .image2d => false
  | .image3d => false

/-- Keyword arguments forwarded to the resampler; none means the argument is
omitted and the resampler default applies. -/
structure ResampleKwargs where
  prefilter : Option Bool
  order : Option ℕ
deriving DecidableEq

/-- Kwargs chosen by the SpatialImage registration of transform
(transform.py lines 247-253): labels get prefilter False and order 0,
images get no overrides. -/
def singleScaleKwargs (schema : RasterSchema) : ResampleKwargs :=
  if schema.isLabels then ⟨some false, some 0⟩ else ⟨none, none⟩

/-- Kwargs chosen by the MultiscaleSpatialImage registration of transform
(transform.py lines 289-296): labels get prefilter False only, images get
no overrides. -/
def multiscaleKwargs (schema : RasterSchema) : ResampleKwargs :=
  if schema.isLabels then ⟨some false, none⟩ else ⟨none, none⟩

/-- Modelled from the spec and the resampler contract: the interpolation
order actually used by dask_image.ndinterp.affine_transform is the passed
order, defaulting to 1 (linear) when omitted; order 0 is nearest-neighbor. -/
def effectiveOrder (k : ResampleKwargs) : ℕ := k.order.getD 1

/-- Nearest-neighbor interpolation means effective order 0. -/
def usesNearestNeighbor (k : ResampleKwargs) : Bool := effectiveOrder k = 0

/-- Modelled from the spec and the resampler contract: spline prefiltering
is on unless explicitly disabled. -/
def usesPrefilter (k : ResampleKwargs) : Bool := k.prefilter.getD true

/-- Kinds of model fitted by the external skimage estimate_transform
collaborator. -/
inductive FitKind where
  | affineFit
  | similarityFit
deriving DecidableEq

/-- Parameter matrix returned by estimate_transform: a 2-D homogeneous
transform with linear part [[a, b], [c, d]] and translation (tx, ty). -/
structure FitParams where
  a : ℚ
  b : ℚ
  tx : ℚ
  c : ℚ
  d : ℚ
  ty : ℚ
deriving DecidableEq

/-- The params attribute of a fitted model as a 3 x 3 matrix. -/
def FitParams.toMat (p : FitParams) : Mat :=
  [[p.a, p.b, p.tx], [p.c, p.d, p.ty], [0, 0, 1]]

/-- Determinant of the linear part of the fitted model (the 2 x 2 top-left
block inspected by the code). -/
def FitParams.detLinear (p : FitParams) : ℚ := p.a * p.d - p.b * p.c

/-- The external least-squares estimator: given the fit kind, the source
points and the destination points, produce the fitted parameters. The
engine treats it as an opaque collaborator. -/
abbrev LandmarkEstimator := FitKind → List (ℚ × ℚ) → List (ℚ × ℚ) → FitParams

/-- Apply a 3 x 3 homogeneous matrix to a 2-D point in (x, y) order. -/
def applyMat2 (m : Mat) (p : ℚ × ℚ) : ℚ × ℚ :=
  (entryL m 0 0 * p.1 + entryL m 0 1 * p.2 + entryL m 0 2,
   entryL m 1 0 * p.1 + entryL m 1 1 * p.2 + entryL m 1 2)

/-- The explicit horizontal flip built by the code when the affine fit has a
negative determinant (transform.py lines 444-455): x goes to 2m - x with
m half of the x-range of the moving points, so the flip line is at half the
range, not at the midpoint of the moving points. -/
def codeFlipMat (movingXY : List (ℚ × ℚ)) : Mat :=
  let xs := movingXY.map Prod.fst
  let m := (listMax xs - listMin xs) / 2
  [[-1, 0, 2 * m], [0, 1, 0], [0, 0, 1]]

/-- Embedding of get_transformation_between_landmarks (transform.py lines
389-474): fit an affine model moving to reference and inspect the
determinant of its linear part; when negative, flip the moving points with
the explicit horizontal flip, re-fit a similarity model on the flipped
points and compose flip then refit; otherwise fit a similarity model; in
both cases materialize the result as a single dense Affine through
to_affine_matrix. -/
def getTransformationBetweenLandmarks (est : LandmarkEstimator)
    (referencesXY movingXY : List (ℚ × ℚ)) : Option Transformation := do
  let model := est .affineFit movingXY referencesXY
  let d := model.detLinear
  let finalMat ←
    if d < 0 then
      let flip := codeFlipMat movingXY
      let flippedXY := movingXY.map (applyMat2 flip)
      let model2 := est .similarityFit flippedXY referencesXY
      toAffineMatrix
        (.sequence [.affine flip [Axis.x, Axis.y] [Axis.x, Axis.y],
                    .affine model2.toMat [Axis.x, Axis.y] [Axis.x, Axis.y]])
        [Axis.x, Axis.y] [Axis.x, Axis.y]
    else
      let model2 := est .similarityFit movingXY referencesXY
      toAffineMatrix (.affine model2.toMat [Axis.x, Axis.y] [Axis.x, Axis.y])
        [Axis.x, Axis.y] [Axis.x, Axis.y]
  pure (.affine finalMat [Axis.x, Axis.y] [Axis.x, Axis.y])

/-- The flip about the midpoint of the moving points described by the claim:
x goes to (max + min) - x. -/
def claimFlipMat (movingXY : List (ℚ × ℚ)) : Mat :=
  let xs := movingXY.map Prod.fst
  [[-1, 0, listMax xs + listMin xs], [0, 1, 0], [0, 0, 1]]

/-- The procedure as worded by the claim (the refinement comparison target,
formalized from the words of the specification, not from the source): first
fit a similarity model moving to reference and inspect the determinant of
its linear part; when negative, flip the moving points about their midpoint,
re-fit a similarity model on the flipped points and compose flip then refit;
materialize the result as a single dense Affine. -/
def getTransformationBetweenLandmarksClaim (est : LandmarkEstimator)
    (referencesXY movingXY : List (ℚ × ℚ)) : Option Transformation := do
  let model := est .similarityFit movingXY referencesXY
  let d := model.detLinear
  let finalMat ←
    if d < 0 then
      let flip := claimFlipMat movingXY
      let flippedXY := movingXY.map (applyMat2 flip)
      let model2 := est .similarityFit flippedXY referencesXY
      toAffineMatrix
        (.sequence [.affine flip [Axis.x, Axis.y] [Axis.x, Axis.y],
                    .affine model2.toMat [Axis.x, Axis.y] [Axis.x, Axis.y]])
        [Axis.x, Axis.y] [Axis.x, Axis.y]
    else
      toAffineMatrix (.affine model.toMat [Axis.x, Axis.y] [Axis.x, Axis.y])
        [Axis.x, Axis.y] [Axis.x, Axis.y]
  pure (.affine finalMat [Axis.x, Axis.y] [Axis.x, Axis.y])

/-- The dense matrix carried by a returned Affine, for comparing results
without an equality instance on transformations. -/
def resultMatrix : Option Transformation → Option Mat
  | some (.affine m _ _) => some m
  | _ => none

/-- Modelled from the spec: a named coordinate system with its ordered axis
sequence; two coordinate systems are equal exactly when name and axis
sequence match (the class lives in a module not under src). -/
structure CoordinateSystem where
  name : String
  axes : List Axis
deriving DecidableEq

/-- One insertion into a Python dict rendered as an assoc list: overwrite in
place when the key exists, append otherwise. -/
def dictInsert {V : Type} (d : List (String × V)) (kv : String × V) :
    List (String × V) :=
  if d.any (fun p => decide (p.1 = kv.1)) then
    d.map (fun p => if p.1 = kv.1 then kv else p)
  else d ++ [kv]

/-- A Python dict comprehension over a list of key-value pairs. -/
def pyDict {V : Type} (l : List (String × V)) : List (String × V) :=
  l.foldl dictInsert []

/-- Embedding of validate_coordinate_systems (_spatialdata.py lines
382-401): deep-copy the inputs, assert that the deduplicated set of
validated systems has the same size as the list, build the name-keyed dict,
and assert that no two entries shared a name. Failing asserts surface as a
plain AssertionError. -/
def validateCoordinateSystems (l : List CoordinateSystem) :
    Except String (List (String × CoordinateSystem)) :=
  let validated := l
  if validated.dedup.length = validated.length then
    let d := pyDict (validated.map (fun v => (v.name, v)))
    if d.length = validated.length then .ok d
    else .error "AssertionError"
  else .error "AssertionError"

/-- Prepend an optional transformation to a graph entry: Sequence([p, t])
when present, the entry unchanged otherwise. -/
def applyPrepend (p : Option Transformation) (t : Transformation) : Transformation :=
  match p with
  | some q => Transformation.sequence [q, t]
  | none => t

/-- The transformation the alignment policy prepends, as worded by the
claim: for raster elements with maintain_positioning the inverse of the
applied transform preceded by the compensating translation, for raster
elements without it only the compensating translation, for non-raster
elements with maintain_positioning the inverse alone, and nothing
otherwise. -/
def alignmentPolicyPrepend (kind : ElementKind) (mp : Bool)
    (rt : Option Transformation) (tinv : Transformation) : Option Transformation :=
  if kind.isRaster then
    if mp then rt.map (fun r => Transformation.sequence [r, tinv]) else rt
  else
    if mp then some tinv else none

/-- Concrete two-element store for the C7 witness. -/
def c7Store : Store := fun i => if i = 0 then [("global", Transformation.identity)] else []

/-- The store after transforming element 0 into the fresh element 1. -/
def c7ResultStore : Store :=
  (transformElementGraphs c7Store 0 .geoDataFrame (.translation [1] [Axis.x]) none false 1).getD
    c7Store

/-- Concrete estimator for the C2 landmark claims: the affine fit reports a
reflection (negative determinant) while the similarity fit, which can never
report one, returns the identity parameters. -/
def c2Est : LandmarkEstimator := fun k _ _ =>
  match k with
  | .affineFit => ⟨-1, 0, 0, 0, 1, 0⟩
  | .similarityFit => ⟨1, 0, 0, 0, 1, 0⟩

/-- Three non-collinear landmark points. -/
def c2Pts : List (ℚ × ℚ) := [(0, 0), (1, 0), (0, 1)]

/-- The always-defined materialization of a Translation declared on the very
axis list it is requested on. -/
def translationMatOn (ax : List Axis) (v : List ℚ) : Mat :=
  ax.map (fun a => (translationRow ax ax v a).getD []) ++ [lastRowQ ax.length]


/-- C5: the claim states that every label-valued raster, single-resolution
or multiresolution, is resampled with nearest-neighbor interpolation and no
prefilter. The code satisfies this for single-resolution labels (prefilter
False, order 0) but for multiresolution labels passes only prefilter False,
so the resampler falls back to its default order 1 (linear), which is not
nearest-neighbor; this contradicts the code comment that labels need to be
preserved. -/
theorem c5_multiscale_labels_not_nearest :
    singleScaleKwargs .labels2d = ⟨some false, some 0⟩ ∧
    singleScaleKwargs .labels3d = ⟨some false, some 0⟩ ∧
    usesNearestNeighbor (singleScaleKwargs .labels2d) = true ∧
    usesPrefilter (singleScaleKwargs .labels2d) = false ∧
    multiscaleKwargs .labels2d = ⟨some false, none⟩ ∧
    multiscaleKwargs .labels3d = ⟨some false, none⟩ ∧
    effectiveOrder (multiscaleKwargs .labels2d) = 1 ∧
    usesNearestNeighbor (multiscaleKwargs .labels2d) = false ∧
    usesNearestNeighbor (multiscaleKwargs .labels3d) = false := by
  decide

/-- C9: every registered per-representation implementation of transform
declares maintain_positioning with default True while the generic fallback
declares default False, so calling transform on a spatial element without
the argument behaves as maintain_positioning equal true. -/
theorem c9_registered_defaults (k : ElementKind) (store : Store) (e : ℕ)
    (t : Transformation) (rt : Option Transformation) (fresh : ℕ) :
    effectiveDefaultMP k.dispatch = true ∧
    effectiveDefaultMP .spatialData = true ∧
    genericFallbackDefault = false ∧
    transformElementGraphs store e k t rt (effectiveDefaultMP k.dispatch) fresh =
      transformElementGraphs store e k t rt true fresh := by
  cases k <;> exact ⟨rfl, rfl, rfl, rfl⟩

/-- C10: transform on a SpatialData container returns a new container
assembled only from the transformed images, labels, points and shapes, each
transformed with the same maintain_positioning flag, and the annotation
table of the input is not carried into the result. -/
theorem c10_table_dropped {Elem Table : Type} (tf : Elem → Transformation → Bool → Elem)
    (sd : SpatialDataObj Elem Table) (t : Transformation) (mp : Bool) :
    (transformSpatialData tf sd t mp).table = none ∧
    (transformSpatialData tf sd t mp).images = sd.images.map (fun kv => (kv.1, tf kv.2 t mp)) ∧
    (transformSpatialData tf sd t mp).labels = sd.labels.map (fun kv => (kv.1, tf kv.2 t mp)) ∧
    (transformSpatialData tf sd t mp).points = sd.points.map (fun kv => (kv.1, tf kv.2 t mp)) ∧
    (transformSpatialData tf sd t mp).shapes = sd.shapes.map (fun kv => (kv.1, tf kv.2 t mp)) :=
  ⟨rfl, rfl, rfl, rfl, rfl⟩

/-- C6: when the element carries no transformation graph entries,
prepend_transformation inserts a default Identity entry under the fixed
default coordinate-system name before applying the alignment policy, the
condition is reported through an informational log (the true flag), and the
call succeeds rather than raising. -/
theorem c6_default_identity (kind : ElementKind) (t : Transformation)
    (rt : Option Transformation) (mp : Bool) (p : Option Transformation)
    (h : computeToPrepend kind t rt mp = .ok p) :
    prependTransformation kind [] t rt mp =
      .ok ([(DEFAULT_COORDINATE_SYSTEM, applyPrepend p Transformation.identity)], true) := by
  unfold prependTransformation
  rw [h]
  rfl

/-- C6 witness at a concrete non-raster element and translation. -/
theorem c6_default_identity_witness :
    prependTransformation .geoDataFrame [] (.translation [1] [Axis.x]) none true =
      .ok ([(DEFAULT_COORDINATE_SYSTEM,
             applyPrepend (some (.translation (List.map Neg.neg [1]) [Axis.x]))
               Transformation.identity)], true) :=
  c6_default_identity .geoDataFrame (.translation [1] [Axis.x]) none true
    (some (.translation (List.map Neg.neg [1]) [Axis.x])) rfl

/-- C3: after the representation-specific step, the alignment policy is
applied to every entry of the transformation graph of the result: with
maintain_positioning the inverse of the applied transform (preceded by the
compensating translation for raster kinds) is prepended to every entry,
without it only the compensating translation is prepended for raster kinds
and non-raster entries stay unchanged. -/
theorem c3_alignment_policy {kind : ElementKind} {graph : Graph} {t : Transformation}
    {rt : Option Transformation} {mp : Bool} {tinv : Transformation}
    (hrt : rt.isSome = kind.isRaster) (hinv : t.inverse = some tinv) :
    prependTransformation kind graph t rt mp =
      .ok ((if graph.isEmpty then [(DEFAULT_COORDINATE_SYSTEM, Transformation.identity)]
            else graph).map
        (fun e => (e.1, applyPrepend (alignmentPolicyPrepend kind mp rt tinv) e.2)),
        graph.isEmpty) := by
  cases kind <;> cases mp <;> cases rt <;>
    simp_all [prependTransformation, computeToPrepend, alignmentPolicyPrepend,
      ElementKind.isRaster, applyPrepend] <;>
    cases hg : graph.isEmpty <;> simp [hg, applyPrepend]

/-- C3 witness at a concrete raster element with a one-entry graph. -/
theorem c3_alignment_policy_witness :
    prependTransformation .spatialImage [("global", Transformation.identity)]
        (.translation [1] [Axis.x]) (some (.translation [9] [Axis.x])) true =
      .ok ((if ([( "global", Transformation.identity)] : Graph).isEmpty then
              [(DEFAULT_COORDINATE_SYSTEM, Transformation.identity)]
            else [("global", Transformation.identity)]).map
        (fun e => (e.1,
          applyPrepend (alignmentPolicyPrepend .spatialImage true
            (some (.translation [9] [Axis.x]))
            (.translation (List.map Neg.neg [1]) [Axis.x])) e.2)),
        ([( "global", Transformation.identity)] : Graph).isEmpty) :=
  c3_alignment_policy rfl rfl

/-- C7: transforming an element never mutates the transformation graph of
the input element nor of any unrelated element; the graph of the result is
built on the fresh output element from a copy of the input graph and all
prepending happens only there. -/
theorem c7_graph_isolation (store : Store) (e : ℕ) (kind : ElementKind)
    (t : Transformation) (rt : Option Transformation) (mp : Bool) (fresh : ℕ)
    (store' : Store) (e2 : ℕ)
    (h : transformElementGraphs store e kind t rt mp fresh = some store')
    (h2 : e2 ≠ fresh) (he : e ≠ fresh) :
    store' e2 = store e2 ∧ store' e = store e := by
  simp only [transformElementGraphs] at h
  split at h
  · cases h
    constructor <;> simp [setGraph, getTransformationAll, h2, he]
  · cases h


/-- C7 witness: transforming element 0 into fresh element 1 leaves the
graphs of elements 2 and 0 untouched. -/
theorem c7_graph_isolation_witness :
    transformElementGraphs c7Store 0 .geoDataFrame (.translation [1] [Axis.x]) none false 1 =
      some c7ResultStore ∧
    c7ResultStore 2 = c7Store 2 ∧ c7ResultStore 0 = c7Store 0 := by
  refine ⟨rfl, ?_, ?_⟩
  · exact (c7_graph_isolation c7Store 0 .geoDataFrame (.translation [1] [Axis.x]) none false 1
      c7ResultStore 2 rfl (by decide) (by decide)).1
  · exact (c7_graph_isolation c7Store 0 .geoDataFrame (.translation [1] [Axis.x]) none false 1
      c7ResultStore 2 rfl (by decide) (by decide)).2

/-- Keys are unchanged when dictInsert overwrites an existing key. -/
theorem dictInsert_keys_of_mem {V : Type} (d : List (String × V)) (kv : String × V)
    (h : kv.1 ∈ d.map Prod.fst) : (dictInsert d kv).map Prod.fst = d.map Prod.fst := by
  obtain ⟨p, hp, he⟩ := List.mem_map.mp h
  unfold dictInsert
  rw [if_pos]
  · rw [List.map_map]
    refine List.map_congr_left (fun q hq => ?_)
    by_cases hc : q.1 = kv.1
    · simp [hc]
    · simp [hc]
  · simp only [List.any_eq_true, decide_eq_true_eq]
    exact ⟨p, hp, he⟩

/-- The new key is appended when dictInsert inserts a fresh key. -/
theorem dictInsert_keys_of_not_mem {V : Type} (d : List (String × V)) (kv : String × V)
    (h : kv.1 ∉ d.map Prod.fst) :
    (dictInsert d kv).map Prod.fst = d.map Prod.fst ++ [kv.1] := by
  unfold dictInsert
  rw [if_neg]
  · simp
  · simp only [List.any_eq_true, decide_eq_true_eq]
    rintro ⟨p, hp, he⟩
    exact h (List.mem_map.mpr ⟨p, hp, he⟩)

/-- Folding dict insertions keeps the key list duplicate-free and its key
set is the union of the accumulated and inserted keys. -/
theorem foldl_dictInsert_keys {V : Type} :
    ∀ (l : List (String × V)) (d : List (String × V)), (d.map Prod.fst).Nodup →
      ((l.foldl dictInsert d).map Prod.fst).toFinset =
        (d.map Prod.fst ++ l.map Prod.fst).toFinset ∧
      ((l.foldl dictInsert d).map Prod.fst).Nodup := by
  intro l
  induction l with
  | nil => intro d hd; simpa using hd
  | cons x l ih =>
    intro d hd
    rw [List.foldl_cons]
    by_cases hm : x.1 ∈ d.map Prod.fst
    · have hk := dictInsert_keys_of_mem d x hm
      obtain ⟨h1, h2⟩ := ih (dictInsert d x) (hk ▸ hd)
      refine ⟨?_, h2⟩
      rw [h1, hk]
      ext a
      simp only [List.toFinset_append, Finset.mem_union, List.mem_toFinset, List.map_cons,
        List.mem_cons]
      constructor
      · rintro (ha | ha)
        · exact Or.inl ha
        · exact Or.inr (Or.inr ha)
      · rintro (ha | ha | ha)
        · exact Or.inl ha
        · exact Or.inl (ha ▸ hm)
        · exact Or.inr ha
    · have hk := dictInsert_keys_of_not_mem d x hm
      have hnd : ((dictInsert d x).map Prod.fst).Nodup := by
        rw [hk]
        simp [List.nodup_append, hd, hm]
      obtain ⟨h1, h2⟩ := ih (dictInsert d x) hnd
      refine ⟨?_, h2⟩
      rw [h1, hk]
      ext a
      simp only [List.toFinset_append, Finset.mem_union, List.mem_toFinset, List.map_cons,
        List.mem_cons, List.mem_singleton]
      tauto

/-- Folding dict insertions of pairwise fresh keys appends the entries in
order. -/
theorem foldl_dictInsert_of_fresh {V : Type} :
    ∀ (l d : List (String × V)), (l.map Prod.fst).Nodup →
      (∀ k ∈ l.map Prod.fst, k ∉ d.map Prod.fst) → l.foldl dictInsert d = d ++ l := by
  intro l
  induction l with
  | nil => intro d _ _; simp
  | cons x l ih =>
    intro d hn hdisj
    rw [List.foldl_cons]
    have hx : x.1 ∉ d.map Prod.fst := hdisj x.1 (by simp)
    have hins : dictInsert d x = d ++ [x] := by
      unfold dictInsert
      rw [if_neg]
      simp only [List.any_eq_true, decide_eq_true_eq]
      rintro ⟨p, hp, he⟩
      exact hx (List.mem_map.mpr ⟨p, hp, he⟩)
    rw [hins, ih (d ++ [x]) (by simpa using hn.of_cons) ?_]
    · simp
    · intro k hk
      simp only [List.map_append, List.mem_append, List.map_cons, List.map_nil,
        List.mem_singleton, List.mem_cons]
      rintro (hkd | hkx)
      · exact hdisj k (by simp [hk]) hkd
      · rcases hkx with hkx | hkx
        · rw [List.map_cons, List.nodup_cons] at hn
          exact hn.1 (hkx ▸ hk)
        · exact absurd hkx (List.not_mem_nil k)

/-- The Python dict built from key-value pairs has one entry per distinct
key. -/
theorem pyDict_length_eq_iff {V : Type} (l : List (String × V)) :
    (pyDict l).length = l.length ↔ (l.map Prod.fst).Nodup := by
  obtain ⟨h1, h2⟩ := foldl_dictInsert_keys l [] (by simp)
  have hkn : ((pyDict l).map Prod.fst).Nodup := h2
  have hpk : ((pyDict l).map Prod.fst).toFinset = (l.map Prod.fst).toFinset := by
    unfold pyDict
    simpa using h1
  constructor
  · intro hl
    have hcard : ((pyDict l).map Prod.fst).toFinset.card = (l.map Prod.fst).toFinset.card := by
      rw [hpk]
    rw [List.toFinset_card_of_nodup hkn] at hcard
    have hlen : ((pyDict l).map Prod.fst).length = (l.map Prod.fst).length := by
      simp only [List.length_map]
      exact hl
    rw [hlen] at hcard
    rw [List.card_toFinset] at hcard
    have hsub := List.dedup_sublist (l.map Prod.fst)
    have hde : (l.map Prod.fst).dedup = l.map Prod.fst := hsub.eq_of_length hcard.symm
    rw [← hde]
    exact List.nodup_dedup _
  · intro hn
    have hfresh := foldl_dictInsert_of_fresh l [] hn (by simp)
    unfold pyDict
    rw [hfresh]
    simp

/-- C8, amended: registering a list of coordinate systems succeeds exactly
when all names are pairwise distinct, in which case it returns the mapping
of each name to its definition; any repeated name, whether from two
differing definitions or from the same fully identical definition listed
twice, trips an assert and raises a plain AssertionError (the code has no
dedicated DuplicateCoordinateSystem error). -/
theorem c8_duplicate_names_rejected (l : List CoordinateSystem) :
    validateCoordinateSystems l = .ok (l.map (fun v => (v.name, v))) ↔
      (l.map CoordinateSystem.name).Nodup := by
  have hkeys : (l.map (fun v => (v.name, v))).map Prod.fst = l.map CoordinateSystem.name := by
    rw [List.map_map]; rfl
  constructor
  · intro h
    unfold validateCoordinateSystems at h
    by_cases h1 : l.dedup.length = l.length
    · rw [if_pos h1] at h
      by_cases h2 : (pyDict (l.map (fun v => (v.name, v)))).length = l.length
      · have := (pyDict_length_eq_iff (l.map (fun v => (v.name, v)))).mp (by simpa using h2)
        rwa [hkeys] at this
      · rw [if_neg (by simpa using h2)] at h
        exact absurd h (by simp)
    · rw [if_neg h1] at h
      exact absurd h (by simp)
  · intro hn
    have hlnd : l.Nodup := hn.of_map _
    have h2 : pyDict (l.map (fun v => (v.name, v))) = l.map (fun v => (v.name, v)) := by
      unfold pyDict
      rw [foldl_dictInsert_of_fresh _ [] (by rwa [hkeys]) (by simp)]
      simp
    unfold validateCoordinateSystems
    rw [if_pos (by rw [List.dedup_eq_self.mpr hlnd]), h2, if_pos (by simp)]

/-- C8 counterexample: the claim says registration succeeds idempotently
when the same fully identical definition appears twice; the code instead
fails the set-size assert on the very first duplicate, raising an
AssertionError (and there is no DuplicateCoordinateSystem error anywhere). -/
theorem c8_counterexample :
    validateCoordinateSystems
        [⟨"global", [Axis.y, Axis.x]⟩, ⟨"global", [Axis.y, Axis.x]⟩] =
      .error "AssertionError" := rfl

/-- A fitted parameter matrix materializes on (x, y) to itself. -/
theorem toAffineMatrix_fitParams (p : FitParams) :
    toAffineMatrix (.affine p.toMat [Axis.x, Axis.y] [Axis.x, Axis.y])
      [Axis.x, Axis.y] [Axis.x, Axis.y] = some p.toMat := rfl

/-- The code flip matrix materializes on (x, y) to itself. -/
theorem toAffineMatrix_codeFlip (movingXY : List (ℚ × ℚ)) :
    toAffineMatrix (.affine (codeFlipMat movingXY) [Axis.x, Axis.y] [Axis.x, Axis.y])
      [Axis.x, Axis.y] [Axis.x, Axis.y] = some (codeFlipMat movingXY) := rfl

/-- Left multiplication by the 3 x 3 identity fixes a fitted parameter
matrix. -/
theorem matMulL_id3_fitParams (p : FitParams) :
    matMulL (identityMat 3) p.toMat = p.toMat := by
  simp [matMulL, identityMat, unitRowQ, dotL, FitParams.toMat, List.range_succ]

/-- C2, amended: with n at least 3 landmarks per side, the code first fits
an affine model moving to reference and inspects the determinant of the
linear part of that affine fit (not of a similarity fit); when it is
negative the moving points are flipped by x to (max - min) - x, the
horizontal flip about the vertical line at half the x-range of the moving
points (the midpoint of the moving set only when its minimum x is 0), a
similarity model is re-fitted on the flipped points and the result is the
single dense Affine holding the pre-multiplied product refit times flip;
otherwise the result is the single dense Affine of a similarity fit. -/
theorem c2_landmarks_amended (est : LandmarkEstimator) (refs mov : List (ℚ × ℚ))
    (h1 : 3 ≤ refs.length) (h2 : 3 ≤ mov.length) :
    getTransformationBetweenLandmarks est refs mov =
      some (.affine
        (if (est .affineFit mov refs).detLinear < 0 then
          matMulL (est .similarityFit (mov.map (applyMat2 (codeFlipMat mov))) refs).toMat
            (codeFlipMat mov)
        else (est .similarityFit mov refs).toMat)
        [Axis.x, Axis.y] [Axis.x, Axis.y]) := by
  by_cases hd : (est .affineFit mov refs).detLinear < 0
  · rw [if_pos hd]
    show (do
      let model := est .affineFit mov refs
      let d := model.detLinear
      let finalMat ←
        if d < 0 then
          let flip := codeFlipMat mov
          let flippedXY := mov.map (applyMat2 flip)
          let model2 := est .similarityFit flippedXY refs
          toAffineMatrix
            (.sequence [.affine flip [Axis.x, Axis.y] [Axis.x, Axis.y],
                        .affine model2.toMat [Axis.x, Axis.y] [Axis.x, Axis.y]])
            [Axis.x, Axis.y] [Axis.x, Axis.y]
        else
          let model2 := est .similarityFit mov refs
          toAffineMatrix (.affine model2.toMat [Axis.x, Axis.y] [Axis.x, Axis.y])
            [Axis.x, Axis.y] [Axis.x, Axis.y]
      pure (Transformation.affine finalMat [Axis.x, Axis.y] [Axis.x, Axis.y])) = _
    rw [if_pos hd]
    have hseq : toAffineMatrix
        (.sequence [.affine (codeFlipMat mov) [Axis.x, Axis.y] [Axis.x, Axis.y],
                    .affine (est .similarityFit (mov.map (applyMat2 (codeFlipMat mov))) refs).toMat
                      [Axis.x, Axis.y] [Axis.x, Axis.y]])
        [Axis.x, Axis.y] [Axis.x, Axis.y] =
      some (matMulL (est .similarityFit (mov.map (applyMat2 (codeFlipMat mov))) refs).toMat
        (codeFlipMat mov)) := by
      show seqMatrixList _ _ = _
      rw [show seqMatrixList
          [.affine (codeFlipMat mov) [Axis.x, Axis.y] [Axis.x, Axis.y],
           .affine (est .similarityFit (mov.map (applyMat2 (codeFlipMat mov))) refs).toMat
             [Axis.x, Axis.y] [Axis.x, Axis.y]] [Axis.x, Axis.y] =
        (toAffineMatrix (.affine (codeFlipMat mov) [Axis.x, Axis.y] [Axis.x, Axis.y])
            [Axis.x, Axis.y] [Axis.x, Axis.y]).bind (fun m =>
          (toAffineMatrix (.affine (est .similarityFit (mov.map (applyMat2 (codeFlipMat mov))) refs).toMat
              [Axis.x, Axis.y] [Axis.x, Axis.y]) [Axis.x, Axis.y] [Axis.x, Axis.y]).bind (fun m2 =>
            some (matMulL (matMulL (identityMat 3) m2) m))) from rfl]
      rw [toAffineMatrix_codeFlip, toAffineMatrix_fitParams]
      show some (matMulL (matMulL (identityMat 3) _) _) = _
      rw [matMulL_id3_fitParams]
    simp only [hseq]
    rfl
  · rw [if_neg hd]
    show (do
      let model := est .affineFit mov refs
      let d := model.detLinear
      let finalMat ←
        if d < 0 then
          let flip := codeFlipMat mov
          let flippedXY := mov.map (applyMat2 flip)
          let model2 := est .similarityFit flippedXY refs
          toAffineMatrix
            (.sequence [.affine flip [Axis.x, Axis.y] [Axis.x, Axis.y],
                        .affine model2.toMat [Axis.x, Axis.y] [Axis.x, Axis.y]])
            [Axis.x, Axis.y] [Axis.x, Axis.y]
        else
          let model2 := est .similarityFit mov refs
          toAffineMatrix (.affine model2.toMat [Axis.x, Axis.y] [Axis.x, Axis.y])
            [Axis.x, Axis.y] [Axis.x, Axis.y]
      pure (Transformation.affine finalMat [Axis.x, Axis.y] [Axis.x, Axis.y])) = _
    rw [if_neg hd]
    simp only [toAffineMatrix_fitParams]
    rfl


/-- C2 witness at the concrete estimator and points. -/
theorem c2_landmarks_amended_witness :
    getTransformationBetweenLandmarks c2Est c2Pts c2Pts =
      some (.affine
        (if (c2Est .affineFit c2Pts c2Pts).detLinear < 0 then
          matMulL (c2Est .similarityFit (c2Pts.map (applyMat2 (codeFlipMat c2Pts))) c2Pts).toMat
            (codeFlipMat c2Pts)
        else (c2Est .similarityFit c2Pts c2Pts).toMat)
        [Axis.x, Axis.y] [Axis.x, Axis.y]) :=
  c2_landmarks_amended c2Est c2Pts c2Pts (by decide) (by decide)

/-- C2 counterexample: at the concrete estimator and points the code flips
(because the determinant it inspects comes from the affine fit) and returns
the flip matrix, while the procedure worded by the claim inspects the
similarity fit, never flips, and returns the identity; the two disagree, so
the claim as stated does not describe the code. -/
theorem c2_counterexample :
    resultMatrix (getTransformationBetweenLandmarks c2Est c2Pts c2Pts) =
      some [[-1, 0, 1], [0, 1, 0], [0, 0, 1]] ∧
    resultMatrix (getTransformationBetweenLandmarksClaim c2Est c2Pts c2Pts) =
      some [[1, 0, 0], [0, 1, 0], [0, 0, 1]] ∧
    getTransformationBetweenLandmarks c2Est c2Pts c2Pts ≠
      getTransformationBetweenLandmarksClaim c2Est c2Pts c2Pts := by
  refine ⟨?_, ?_, ?_⟩
  · norm_num [getTransformationBetweenLandmarks, c2Est, c2Pts, FitParams.detLinear,
      FitParams.toMat, codeFlipMat, applyMat2, entryL, listMax, listMin, max_def, min_def,
      toAffineMatrix, seqMatrixList, affineRow, passThroughRow, idxOf?, unitRowQ,
      identityMat, lastRowQ, matMulL, dotL, rowsFor, List.range_succ, resultMatrix]
    simp [List.range_succ]
  · norm_num [getTransformationBetweenLandmarksClaim, c2Est, c2Pts, FitParams.detLinear,
      FitParams.toMat, claimFlipMat, applyMat2, entryL, listMax, listMin, max_def, min_def,
      toAffineMatrix, seqMatrixList, affineRow, passThroughRow, idxOf?, unitRowQ,
      identityMat, lastRowQ, matMulL, dotL, rowsFor, List.range_succ, resultMatrix]
    simp
  · intro h
    have h1 : resultMatrix (getTransformationBetweenLandmarks c2Est c2Pts c2Pts) =
        some [[-1, 0, 1], [0, 1, 0], [0, 0, 1]] := by
      norm_num [getTransformationBetweenLandmarks, c2Est, c2Pts, FitParams.detLinear,
        FitParams.toMat, codeFlipMat, applyMat2, entryL, listMax, listMin, max_def, min_def,
        toAffineMatrix, seqMatrixList, affineRow, passThroughRow, idxOf?, unitRowQ,
        identityMat, lastRowQ, matMulL, dotL, rowsFor, List.range_succ, resultMatrix]
      simp [List.range_succ]
    have h2 : resultMatrix (getTransformationBetweenLandmarksClaim c2Est c2Pts c2Pts) =
        some [[1, 0, 0], [0, 1, 0], [0, 0, 1]] := by
      norm_num [getTransformationBetweenLandmarksClaim, c2Est, c2Pts, FitParams.detLinear,
        FitParams.toMat, claimFlipMat, applyMat2, entryL, listMax, listMin, max_def, min_def,
        toAffineMatrix, seqMatrixList, affineRow, passThroughRow, idxOf?, unitRowQ,
        identityMat, lastRowQ, matMulL, dotL, rowsFor, List.range_succ, resultMatrix]
      simp
    rw [h, h2] at h1
    norm_num at h1

/-- An axis present in the list has an index. -/
theorem idxOf?_isSome (ax : List Axis) (a : Axis) (h : a ∈ ax) : (idxOf? ax a).isSome := by
  induction ax with
  | nil => simp at h
  | cons b rest ih =>
    rw [idxOf?]
    by_cases hb : b = a
    · simp [hb]
    · rcases List.mem_cons.mp h with hba | hm
      · exact absurd hba.symm hb
      · simp [hb, ih hm]

/-- Collecting rows succeeds with the pointwise values when every row
exists. -/
theorem rowsFor_eq_map (f : Axis → Option (List ℚ)) (g : Axis → List ℚ) :
    ∀ l : List Axis, (∀ a ∈ l, f a = some (g a)) → rowsFor f l = some (l.map g) := by
  intro l
  induction l with
  | nil => intro _; rfl
  | cons a rest ih =>
    intro h
    rw [rowsFor, h a (by simp), ih (fun b hb => h b (by simp [hb]))]
    rfl


/-- A Translation declared on ax materializes on (ax, ax) without failure. -/
theorem toAffineMatrix_translation_self (ax : List Axis) (v : List ℚ) :
    toAffineMatrix (.translation v ax) ax ax = some (translationMatOn ax v) := by
  have hrow : ∀ a ∈ ax, translationRow ax ax v a = some ((translationRow ax ax v a).getD []) := by
    intro a ha
    have hs : (translationRow ax ax v a).isSome := by
      rw [translationRow]
      simpa using idxOf?_isSome ax a ha
    obtain ⟨r, hr⟩ := Option.isSome_iff_exists.mp hs
    rw [hr]
    rfl
  show (do
    let rows ← rowsFor (fun a => translationRow ax ax v a) ax
    pure (rows ++ [lastRowQ ax.length])) = some (translationMatOn ax v)
  rw [rowsFor_eq_map _ (fun a => (translationRow ax ax v a).getD []) ax hrow]
  rfl

/-- Matrix of the two-stage Sequence of a translation declared on ax
followed by a transformation with known materialization. -/
theorem seqMatrix_translation (ax : List Axis) (v : List ℚ) (u : Transformation) (mu : Mat)
    (hu : toAffineMatrix u ax ax = some mu) :
    toAffineMatrix (.sequence [.translation v ax, u]) ax ax =
      some (matMulL (matMulL (identityMat (ax.length + 1)) mu) (translationMatOn ax v)) := by
  show (if ax = ax then seqMatrixList [.translation v ax, u] ax else none) = _
  rw [if_pos rfl]
  show (do
    let m ← toAffineMatrix (.translation v ax) ax ax
    let mrest ← seqMatrixList [u] ax
    pure (matMulL mrest m)) = _
  rw [toAffineMatrix_translation_self]
  show (do
    let m2 ← toAffineMatrix u ax ax
    let mrest ← seqMatrixList [] ax
    pure (matMulL mrest m2)).bind (fun mrest => some (matMulL mrest (translationMatOn ax v))) = _
  rw [hu]
  rfl

/-- The binary-corner pipeline of the code enumerates exactly the corners of
the spatial bounding box. -/
theorem binary_scaled_eq_boxCorners (ss : List ℕ) :
    (binaryVectors ss.length).map
        (fun bs => List.zipWith (fun b (s : ℕ) => b * (s : ℚ)) bs ss) = boxCorners ss := by
  induction ss with
  | nil => rfl
  | cons s rest ih =>
    rw [List.length_cons, binaryVectors, boxCorners, ← ih]
    simp only [List.flatMap_cons, List.flatMap_nil, List.map_append, List.map_map,
      List.append_nil]
    congr 1
    · refine List.map_congr_left (fun bs _ => ?_)
      simp
    · refine List.map_congr_left (fun bs _ => ?_)
      simp

/-- Characterization of transform_raster on a raster whose axes are a
channel axis followed by spatial axes. -/
theorem transformRaster_withC (t : Transformation) (spatAxes : List Axis) (spatShape : List ℕ)
    (c0 : ℕ) (M Mi : Mat) (tinv : Transformation)
    (hsp : ∀ a ∈ spatAxes, a.isSpatial = true)
    (hlen : spatShape.length = spatAxes.length)
    (hM : toAffineMatrix t (Axis.c :: spatAxes) (Axis.c :: spatAxes) = some M)
    (hinv : t.inverse = some tinv)
    (hMi : toAffineMatrix tinv (Axis.c :: spatAxes) (Axis.c :: spatAxes) = some Mi) :
    transformRaster (c0 :: spatShape) (Axis.c :: spatAxes) t =
      some { outputShape := (c0 : ℤ) ::
               (List.range spatShape.length).map (fun i =>
                 pyInt (listMax (columnL (mappedCorners M true spatShape) (1 + i)) -
                        listMin (columnL (mappedCorners M true spatShape) (1 + i)))),
             translationVector := (List.range (spatAxes.length + 1)).map
               (fun i => listMin (columnL (mappedCorners M true spatShape) i)),
             translationAxes := Axis.c :: spatAxes,
             matrixPassed := matMulL (matMulL (identityMat (spatAxes.length + 1 + 1)) Mi)
               (translationMatOn (Axis.c :: spatAxes)
                 ((List.range (spatAxes.length + 1)).map
                   (fun i => listMin (columnL (mappedCorners M true spatShape) i)))) } := by
  have hc : Axis.c.isSpatial = false := rfl
  have hfe : List.filter (fun a => a.isSpatial) spatAxes = spatAxes := List.filter_eq_self.mpr hsp
  have hk : nSpatialDims (Axis.c :: spatAxes) = spatShape.length := by
    simp [nSpatialDims, hc, hfe, hlen]
  have hone : 1 + spatAxes.length = spatAxes.length + 1 := Nat.add_comm 1 _
  have hdrop : (c0 :: spatShape).drop ((c0 :: spatShape).length - spatShape.length) = spatShape := by
    simp
  simp only [transformRaster, hk, hM, hinv, Option.bind_eq_bind, Option.some_bind, hdrop,
    binary_scaled_eq_boxCorners]
  simp [mappedCorners, List.map_map, Function.comp, hlen, hone]
  rw [seqMatrix_translation _ _ _ _ hMi]
  simp [mappedCorners, List.map_map, Function.comp_def, hlen, hone]

/-- Characterization of transform_raster on a raster with spatial axes
only. -/
theorem transformRaster_noC (t : Transformation) (spatAxes : List Axis) (spatShape : List ℕ)
    (M Mi : Mat) (tinv : Transformation)
    (hsp : ∀ a ∈ spatAxes, a.isSpatial = true)
    (hlen : spatShape.length = spatAxes.length)
    (hM : toAffineMatrix t spatAxes spatAxes = some M)
    (hinv : t.inverse = some tinv)
    (hMi : toAffineMatrix tinv spatAxes spatAxes = some Mi) :
    transformRaster spatShape spatAxes t =
      some { outputShape := (List.range spatShape.length).map (fun i =>
               pyInt (listMax (columnL (mappedCorners M false spatShape) i) -
                      listMin (columnL (mappedCorners M false spatShape) i))),
             translationVector := (List.range spatAxes.length).map
               (fun i => listMin (columnL (mappedCorners M false spatShape) i)),
             translationAxes := spatAxes,
             matrixPassed := matMulL (matMulL (identityMat (spatAxes.length + 1)) Mi)
               (translationMatOn spatAxes
                 ((List.range spatAxes.length).map
                   (fun i => listMin (columnL (mappedCorners M false spatShape) i)))) } := by
  have hcnot : Axis.c ∉ spatAxes := fun h => by
    have := hsp _ h
    simp [Axis.isSpatial] at this
  have hfe : List.filter (fun a => a.isSpatial) spatAxes = spatAxes := List.filter_eq_self.mpr hsp
  have hk : nSpatialDims spatAxes = spatShape.length := by
    simp [nSpatialDims, hfe, hlen]
  have hdrop : spatShape.drop (spatShape.length - spatShape.length) = spatShape := by
    simp
  simp only [transformRaster, hk, hM, hinv, Option.bind_eq_bind, Option.some_bind, hdrop,
    binary_scaled_eq_boxCorners]
  simp [mappedCorners, List.map_map, Function.comp_def, hlen, hcnot]
  rw [seqMatrix_translation _ _ _ _ hMi]
  simp [mappedCorners, List.map_map, Function.comp_def, hlen, hcnot]

/-- C4: for a single-resolution raster with an optional channel axis
followed by k spatial axes, transform maps the 2 to the k corners of the
spatial bounding box through the affine matrix of the transformation, the
output spatial shape per spatial axis is the integer span (maximum minus
minimum, converted to an integer) of the mapped corners while the channel
axis keeps its original length, and the per-axis minimum of the mapped
corners is recorded as the compensating Translation on the element axes. -/
theorem c4_shape_and_translation (t : Transformation) (hasC : Bool)
    (spatAxes : List Axis) (spatShape : List ℕ) (c0 : ℕ) (M Mi : Mat) (tinv : Transformation)
    (hsp : ∀ a ∈ spatAxes, a.isSpatial = true)
    (hlen : spatShape.length = spatAxes.length)
    (hM : toAffineMatrix t ((if hasC then [Axis.c] else []) ++ spatAxes)
      ((if hasC then [Axis.c] else []) ++ spatAxes) = some M)
    (hinv : t.inverse = some tinv)
    (hMi : toAffineMatrix tinv ((if hasC then [Axis.c] else []) ++ spatAxes)
      ((if hasC then [Axis.c] else []) ++ spatAxes) = some Mi) :
    (transformRaster ((if hasC then [c0] else []) ++ spatShape)
        ((if hasC then [Axis.c] else []) ++ spatAxes) t).map RasterTransformResult.outputShape =
      some ((if hasC then [(c0 : ℤ)] else []) ++ (List.range spatShape.length).map (fun i =>
        pyInt (listMax (columnL (mappedCorners M hasC spatShape) ((if hasC then 1 else 0) + i)) -
               listMin (columnL (mappedCorners M hasC spatShape) ((if hasC then 1 else 0) + i))))) ∧
    (transformRaster ((if hasC then [c0] else []) ++ spatShape)
        ((if hasC then [Axis.c] else []) ++ spatAxes) t).map RasterTransformResult.translationVector =
      some ((List.range ((if hasC then 1 else 0) + spatAxes.length)).map
        (fun i => listMin (columnL (mappedCorners M hasC spatShape) i))) ∧
    (transformRaster ((if hasC then [c0] else []) ++ spatShape)
        ((if hasC then [Axis.c] else []) ++ spatAxes) t).map RasterTransformResult.translationAxes =
      some ((if hasC then [Axis.c] else []) ++ spatAxes) := by
  cases hasC
  · simp only [Bool.false_eq_true, if_false, List.nil_append] at hM hMi ⊢
    rw [transformRaster_noC t spatAxes spatShape M Mi tinv hsp hlen hM hinv hMi]
    simp
  · simp only [if_true, List.singleton_append] at hM hMi ⊢
    rw [transformRaster_withC t spatAxes spatShape c0 M Mi tinv hsp hlen hM hinv hMi]
    simp [Nat.add_comm]

/-- C4 witness: identity transform on a channel-first 2-D raster. -/
theorem c4_shape_and_translation_witness :
    (transformRaster ((if true then [2] else []) ++ [1, 1])
        ((if true then [Axis.c] else []) ++ [Axis.y, Axis.x]) .identity).map
        RasterTransformResult.outputShape =
      some ((if true then [(2 : ℤ)] else []) ++ (List.range ([1, 1] : List ℕ).length).map (fun i =>
        pyInt (listMax (columnL (mappedCorners [[1, 0, 0, 0], [0, 1, 0, 0], [0, 0, 1, 0], [0, 0, 0, 1]] true [1, 1]) ((if true then 1 else 0) + i)) -
               listMin (columnL (mappedCorners [[1, 0, 0, 0], [0, 1, 0, 0], [0, 0, 1, 0], [0, 0, 0, 1]] true [1, 1]) ((if true then 1 else 0) + i))))) ∧
    (transformRaster ((if true then [2] else []) ++ [1, 1])
        ((if true then [Axis.c] else []) ++ [Axis.y, Axis.x]) .identity).map
        RasterTransformResult.translationVector =
      some ((List.range ((if true then 1 else 0) + ([Axis.y, Axis.x] : List Axis).length)).map
        (fun i => listMin (columnL (mappedCorners [[1, 0, 0, 0], [0, 1, 0, 0], [0, 0, 1, 0], [0, 0, 0, 1]] true [1, 1]) i))) ∧
    (transformRaster ((if true then [2] else []) ++ [1, 1])
        ((if true then [Axis.c] else []) ++ [Axis.y, Axis.x]) .identity).map
        RasterTransformResult.translationAxes =
      some ((if true then [Axis.c] else []) ++ [Axis.y, Axis.x]) :=
  c4_shape_and_translation .identity true [Axis.y, Axis.x] [1, 1] 2
    [[1, 0, 0, 0], [0, 1, 0, 0], [0, 0, 1, 0], [0, 0, 0, 1]]
    [[1, 0, 0, 0], [0, 1, 0, 0], [0, 0, 1, 0], [0, 0, 0, 1]] .identity
    (by decide) rfl rfl rfl rfl

/-- C1, amended: for every raster element and every applicable
transformation, the pull-back mapping passed to the inverse-warping
resampler is the affine matrix of
Sequence([compensating_translation, transform.inverse()]) itself, where the
compensating translation is the per-axis minimum of the mapped corners, and
not the inverse of that Sequence (the matrix argument of the resampler
already maps output coordinates back to input coordinates). -/
theorem c1_pullback_matrix (t : Transformation) (hasC : Bool)
    (spatAxes : List Axis) (spatShape : List ℕ) (c0 : ℕ) (M Mi : Mat) (tinv : Transformation)
    (hsp : ∀ a ∈ spatAxes, a.isSpatial = true)
    (hlen : spatShape.length = spatAxes.length)
    (hM : toAffineMatrix t ((if hasC then [Axis.c] else []) ++ spatAxes)
      ((if hasC then [Axis.c] else []) ++ spatAxes) = some M)
    (hinv : t.inverse = some tinv)
    (hMi : toAffineMatrix tinv ((if hasC then [Axis.c] else []) ++ spatAxes)
      ((if hasC then [Axis.c] else []) ++ spatAxes) = some Mi) :
    (transformRaster ((if hasC then [c0] else []) ++ spatShape)
        ((if hasC then [Axis.c] else []) ++ spatAxes) t).bind (fun r =>
      toAffineMatrix (.sequence [.translation r.translationVector r.translationAxes, tinv])
        ((if hasC then [Axis.c] else []) ++ spatAxes)
        ((if hasC then [Axis.c] else []) ++ spatAxes)) =
      (transformRaster ((if hasC then [c0] else []) ++ spatShape)
        ((if hasC then [Axis.c] else []) ++ spatAxes) t).map RasterTransformResult.matrixPassed ∧
    (transformRaster ((if hasC then [c0] else []) ++ spatShape)
        ((if hasC then [Axis.c] else []) ++ spatAxes) t).isSome = true := by
  cases hasC
  · simp only [Bool.false_eq_true, if_false, List.nil_append] at hM hMi ⊢
    rw [transformRaster_noC t spatAxes spatShape M Mi tinv hsp hlen hM hinv hMi]
    refine ⟨?_, rfl⟩
    rw [Option.some_bind]
    rw [seqMatrix_translation _ _ _ _ hMi]
    rfl
  · simp only [if_true, List.singleton_append] at hM hMi ⊢
    rw [transformRaster_withC t spatAxes spatShape c0 M Mi tinv hsp hlen hM hinv hMi]
    refine ⟨?_, rfl⟩
    rw [Option.some_bind]
    rw [seqMatrix_translation _ _ _ _ hMi]
    rfl

/-- C1 witness: a plain translation of a 2-D raster without channel axis. -/
theorem c1_pullback_matrix_witness :
    (transformRaster ((if false then [0] else []) ++ [1, 1])
        ((if false then [Axis.c] else []) ++ [Axis.y, Axis.x]) (.translation [3, 4] [Axis.y, Axis.x])).bind
        (fun r =>
          toAffineMatrix (.sequence [.translation r.translationVector r.translationAxes,
              .translation (List.map Neg.neg [3, 4]) [Axis.y, Axis.x]])
            ((if false then [Axis.c] else []) ++ [Axis.y, Axis.x])
            ((if false then [Axis.c] else []) ++ [Axis.y, Axis.x])) =
      (transformRaster ((if false then [0] else []) ++ [1, 1])
        ((if false then [Axis.c] else []) ++ [Axis.y, Axis.x]) (.translation [3, 4] [Axis.y, Axis.x])).map
        RasterTransformResult.matrixPassed ∧
    (transformRaster ((if false then [0] else []) ++ [1, 1])
        ((if false then [Axis.c] else []) ++ [Axis.y, Axis.x]) (.translation [3, 4] [Axis.y, Axis.x])).isSome = true :=
  c1_pullback_matrix (.translation [3, 4] [Axis.y, Axis.x]) false [Axis.y, Axis.x] [1, 1] 0
    [[1, 0, 3], [0, 1, 4], [0, 0, 1]] [[1, 0, Neg.neg 3], [0, 1, Neg.neg 4], [0, 0, 1]]
    (.translation (List.map Neg.neg [3, 4]) [Axis.y, Axis.x])
    (by decide) rfl rfl rfl rfl

/-- C1 counterexample: scaling a one-pixel 1-D raster by 2. The matrix
passed to the resampler is the matrix of
Sequence([compensating_translation, transform.inverse()]) itself, with
diagonal one half, while the inverse of that Sequence materializes to the
diagonal-two matrix; the two differ, so the pull-back is not the inverse of
the Sequence as the claim states. -/
theorem c1_counterexample :
    (transformRaster [1] [Axis.x] (.scale [2] [Axis.x])).map
        RasterTransformResult.matrixPassed = some [[(2 : ℚ)⁻¹, 0], [0, 1]] ∧
    (transformRaster [1] [Axis.x] (.scale [2] [Axis.x])).map
        RasterTransformResult.translationVector = some [0] ∧
    ((Transformation.inverse
        (.sequence [.translation [0] [Axis.x], .scale [(2 : ℚ)⁻¹] [Axis.x]])).bind
      (fun s => toAffineMatrix s [Axis.x] [Axis.x])) = some [[2, 0], [0, 1]] ∧
    ([[(2 : ℚ)⁻¹, 0], [0, 1]] : Mat) ≠ [[2, 0], [0, 1]] := by
  refine ⟨?_, ?_, ?_, ?_⟩
  · norm_num [transformRaster, nSpatialDims, Axis.isSpatial, binaryVectors, listMax, listMin,
      columnL, toAffineMatrix, seqMatrixList, rowsFor, scaleRow, translationRow, passThroughRow,
      idxOf?, lookupAxisVal, unitRowQ, identityMat, lastRowQ, matMulL, matVecL, dotL, pyInt,
      Transformation.inverse, invListRev, List.range_succ, max_def, min_def]
    simp [List.range_succ]
  · norm_num [transformRaster, nSpatialDims, Axis.isSpatial, binaryVectors, listMax, listMin,
      columnL, toAffineMatrix, seqMatrixList, rowsFor, scaleRow, translationRow, passThroughRow,
      idxOf?, lookupAxisVal, unitRowQ, identityMat, lastRowQ, matMulL, matVecL, dotL, pyInt,
      Transformation.inverse, invListRev, List.range_succ, max_def, min_def]
    simp [List.range_succ]
  · norm_num [toAffineMatrix, seqMatrixList, rowsFor, scaleRow, translationRow, passThroughRow,
      idxOf?, lookupAxisVal, unitRowQ, identityMat, lastRowQ, matMulL, matVecL, dotL,
      Transformation.inverse, invListRev, List.range_succ]
  · intro h
    norm_num at h
